import Mathlib

/-!
Verification development for `uvi.py`, an interactive front-end around
`uv init` (project scaffolding) with a one-shot missing-interpreter
recovery protocol.

Strings from the Python source are embedded as `List Char`; byte streams
read from the pseudo-terminal are embedded as `List Nat` (one `Nat` per
byte).  Child-process executions and user answers are supplied by an
explicit environment so that the straight-line control flow of `main`
becomes a pure function returning the final exit code together with an
event trace.
-/

-- ********************* STRING HELPERS *********************

/-- The characters of a string literal, used to embed Python strings. -/
def chars (s : String) : List Char := s.data

/-- Python `str.strip()` (restricted to ASCII whitespace). -/
def strip (s : List Char) : List Char :=
  ((s.dropWhile Char.isWhitespace).reverse.dropWhile Char.isWhitespace).reverse

/-- Python `str.lower()` (restricted to ASCII letters). -/
def lower (s : List Char) : List Char := s.map Char.toLower

/-- The decimal digit character for `n < 10`. -/
def digitChar (n : Nat) : Char := Char.ofNat (48 + n)

/-- Auxiliary fuelled loop for `natDigits`. -/
def natDigitsAux : Nat → Nat → List Char
  | 0, _ => []
  | fuel + 1, n =>
    if n < 10 then [digitChar n]
    else natDigitsAux fuel (n / 10) ++ [digitChar (n % 10)]

/-- Decimal rendering of a natural number, as Python string formatting does. -/
def natDigits (n : Nat) : List Char := natDigitsAux (n + 1) n

-- *********************** CONSTS (src/uvi.py lines 23-33) ***********************

/-- Constant `PROJ_TYPES`: map from short project-type codes to long forms. -/
def PROJ_TYPES : List (List Char × List Char) :=
  [(chars "b", chars "bare"),
   (chars "p", chars "package"),
   (chars "a", chars "app"),
   (chars "l", chars "lib"),
   (chars "s", chars "script")]

/-- Constant `PY3_SUPPORT = range(7, 15)`, i.e. the minor versions 7,…,14. -/
def PY3_SUPPORT : List Nat := List.range' 7 8

/-- The version strings generated by `(f"3.{i}" for i in PY3_SUPPORT)`. -/
def supportedVers : List (List Char) :=
  PY3_SUPPORT.map (fun i => chars "3." ++ natDigits i)

/-- Constant `f"3.{PY3_SUPPORT[-2]}"`: the default version returned by `get_ver`
on an empty answer (Python negative index `-2` is index `length - 2`). -/
def defaultVer : List Char :=
  chars "3." ++ natDigits (PY3_SUPPORT.getD (PY3_SUPPORT.length - 2) 0)

-- **************** FAILURE CLASSIFIER (src/uvi.py lines 76-80) ****************

/-- First fragment of the regex in `detect_missing_ver`:
`No interpreter found for Python ` (the literal before `(\d+\.\d+)`). -/
def frag1 : List Char := chars "No interpreter found for Python "

/-- Middle fragment of the regex: `A managed Python download is available`. -/
def frag2 : List Char := chars "A managed Python download is available"

/-- Final fragment of the regex with the back-reference `\1` replaced by
the bound version: ``use `uv python install V` ``. -/
def frag3 (v : List Char) : List Char :=
  chars "use `uv python install " ++ v ++ chars "`"

/-- Function `findSub s t`: the remainder of `t` after the first (leftmost)
occurrence of `s` in `t`, or `none` when `s` does not occur.  This is the
semantics of an unanchored regex literal search inside `re.DOTALL` text. -/
def findSub (s : List Char) : List Char → Option (List Char)
  | [] => if s.isPrefixOf [] then some [] else none
  | c :: t =>
    if s.isPrefixOf (c :: t) then some ((c :: t).drop s.length)
    else findSub s t

/-- Check that `rest` (the text after the bound version) contains `frag2`
followed somewhere later by `frag3 v`, i.e. the `.*frag2.*frag3` tail of
the regex succeeds. -/
def checkTail (v rest : List Char) : Bool :=
  match findSub frag2 rest with
  | none => false
  | some r2 => (findSub (frag3 v) r2).isSome

/-- Backtracking over the second `\d+` of the group `(\d+\.\d+)`: the
regex engine tries the greediest (longest) digit run first and gives back
one digit at a time.  `d2` is the maximal digit run after the dot and
`t3` the text starting at that run; `k` is the candidate length. -/
def tryVer (d1 d2 t3 : List Char) : Nat → Option (List Char)
  | 0 => none
  | k + 1 =>
    if checkTail (d1 ++ '.' :: d2.take (k + 1)) (t3.drop (k + 1)) then
      some (d1 ++ '.' :: d2.take (k + 1))
    else tryVer d1 d2 t3 k

/-- Attempt the group `(\d+\.\d+)` and the tail of the pattern on the
text `t1` right after the literal `frag1`: the first `\d+` is forced to
be the maximal digit run (giving back a digit makes the following `\.`
fail on a digit), then a literal dot, then `tryVer` backtracks over the
second digit run. -/
def tryAfterFrag1 (t1 : List Char) : Option (List Char) :=
  if t1.takeWhile Char.isDigit = [] then none
  else
    match t1.dropWhile Char.isDigit with
    | c :: t3 =>
      if c = '.' then
        tryVer (t1.takeWhile Char.isDigit) (t3.takeWhile Char.isDigit) t3
          (t3.takeWhile Char.isDigit).length
      else none
    | [] => none

/-- Attempt the whole pattern anchored at the start of `t`: the literal
`frag1`, then the group and tail via `tryAfterFrag1`. -/
def tryAt (t : List Char) : Option (List Char) :=
  if frag1.isPrefixOf t then tryAfterFrag1 (t.drop frag1.length)
  else none

/-- Source `detect_missing_ver(output)`: `re.search` of
`No interpreter found for Python (\d+\.\d+).*A managed Python download is
available.*use &#96;uv python install \1&#96;` with `re.DOTALL`, returning
`match.group(1)`.  `re.search` tries match start positions left to right,
which is the suffix recursion below. -/
def detect_missing_ver : List Char → Option (List Char)
  | [] => none
  | c :: t =>
    match tryAt (c :: t) with
    | some v => some v
    | none => detect_missing_ver t

-- **************** PROMPT COLLECTOR (src/uvi.py lines 58-74, 172-196) ****************

/-- Source `yn_inp(prompt)`: read answers until one strips/lowers to a
member of `{"yes","y"}` (then `True`) or `{"no","n"}` (then `False`).
The argument is the stream of raw answer lines; `none` models a program
blocked forever because no valid answer ever arrives. -/
def yn_inp : List (List Char) → Option Bool
  | [] => none
  | a :: rest =>
    let x := lower (strip a)
    if x = chars "yes" ∨ x = chars "y" then some true
    else if x = chars "no" ∨ x = chars "n" then some false
    else yn_inp rest

/-- Source `get_ver()`: loop over answer lines; an empty (stripped)
answer yields `defaultVer`, an answer in `supportedVers` is returned
as-is, anything else prints an error and re-prompts. -/
def get_ver : List (List Char) → Option (List Char)
  | [] => none
  | a :: rest =>
    let ver := lower (strip a)
    if ver = [] then some defaultVer
    else if ver ∈ supportedVers then some ver
    else get_ver rest

/-- The single-quote character, written by code point to keep source text
plain. -/
def squote : Char := Char.ofNat 39

/-- The double-quote character. -/
def dquote : Char := Char.ofNat 34

/-- Modelled CPython `repr` on strings of printable characters: wrap in
single quotes (double quotes when the text has a single quote but no
double quote) and escape backslashes and the chosen quote.  Only the
non-`script` branch of `main` uses this, and no claim inspects it. -/
def pyRepr (s : List Char) : List Char :=
  let q := if s.contains squote && !(s.contains dquote) then dquote else squote
  let esc := fun (c : Char) =>
    if c = '\\' then ['\\', '\\'] else if c = q then ['\\', q] else [c]
  q :: (s.map esc).flatten ++ [q]

-- **************** ARG VALIDATION (src/uvi.py lines 122-166) ****************

/-- What `parse_args` writes before exiting: the help text, the version
banner, or an error line (help and version rendering are out of scope,
so only the message of `perr` is carried verbatim). -/
inductive Printed where
  | help
  | version
  | err (msg : List Char)
deriving DecidableEq

/-- Outcome of `parse_args`: either `sys.exit(code)` after printing, or
the validated `(proj_type, proj_name)` pair. -/
inductive ParseOutcome where
  | exit (code : Nat) (printed : List Printed)
  | ok (projType projName : List Char)
deriving DecidableEq

/-- Source `valid_proj_type`: membership among short codes or long forms. -/
def valid_proj_type (t : List Char) : Bool :=
  decide (t ∈ PROJ_TYPES.map Prod.fst) || decide (t ∈ PROJ_TYPES.map Prod.snd)

/-- Error message printed by `valid_proj_type` on an invalid type. -/
def invalidTypeMsg (t : List Char) : List Char :=
  chars "invalid project type: [yellow]" ++ t ++ chars "[/] (see [cyan]uvi --help[/])"

/-- Source `valid_proj_name`: Python `str.isidentifier()` restricted to
ASCII (identifier validation is an out-of-scope collaborator in the
spec; no claim depends on its Unicode corners). -/
def valid_proj_name (n : List Char) : Bool :=
  match n with
  | [] => false
  | c :: rest =>
    (c.isAlpha || c = '_') && rest.all (fun d => d.isAlphanum || d = '_')

/-- Error message printed by `valid_proj_name` on an invalid name. -/
def invalidNameMsg (n : List Char) : List Char :=
  chars "invalid project name: " ++ n

/-- Source `PROJ_TYPES.get(arg, arg)`: map a short code to its long form,
leave anything else unchanged. -/
def projTypeGet (t : List Char) : List Char :=
  match PROJ_TYPES.find? (fun p => p.fst = t) with
  | some p => p.snd
  | none => t

/-- Source `parse_args()`.  `argv` is the whole `sys.argv` (program name
first); `argc = len(sys.argv) - 1`.  The flag checks use `in sys.argv`,
so they see every position, and help takes precedence over version,
which takes precedence over all count/validity errors. -/
def parse_args (argv : List (List Char)) : ParseOutcome :=
  let argc := argv.length - 1
  if chars "-h" ∈ argv ∨ chars "--help" ∈ argv then .exit 0 [.help]
  else if chars "-v" ∈ argv ∨ chars "--version" ∈ argv then .exit 0 [.version]
  else if argc = 0 then
    .exit 2 [.err (chars "missing args: project type & project name")]
  else if argc = 1 then
    if valid_proj_type (argv.getD 1 []) then
      .exit 2 [.err (chars "missing arg: project name")]
    else
      .exit 2 [.err (invalidTypeMsg (argv.getD 1 []))]
  else if argc = 2 then
    let t := argv.getD 1 []
    let n := argv.getD 2 []
    if !valid_proj_type t then .exit 2 [.err (invalidTypeMsg t)]
    else if !valid_proj_name n then .exit 2 [.err (invalidNameMsg n)]
    else .ok (projTypeGet t) n
  else
    .exit 2 [.err (chars "too many args: give only project type & project name")]

-- **************** PTY EXECUTOR (src/uvi.py lines 94-116) ****************

/-- Unicode replacement character U+FFFD, produced by
`decode("utf-8", errors="replace")` for ill-formed byte sequences. -/
def replChar : Char := Char.ofNat 0xFFFD

/-- Continuation-byte test `0x80 ≤ b ≤ 0xBF`. -/
def isCont (b : Nat) : Bool := 0x80 ≤ b && b ≤ 0xBF

/-- Valid second-byte range for a three-byte lead `b` (tightened for
`0xE0` and for `0xED`, which excludes surrogates). -/
def cont2of3 (b b2 : Nat) : Bool :=
  if b = 0xE0 then 0xA0 ≤ b2 && b2 ≤ 0xBF
  else if b = 0xED then 0x80 ≤ b2 && b2 ≤ 0x9F
  else isCont b2

/-- Valid second-byte range for a four-byte lead `b` (tightened for
`0xF0` and for `0xF4`, which caps at U+10FFFF). -/
def cont2of4 (b b2 : Nat) : Bool :=
  if b = 0xF0 then 0x90 ≤ b2 && b2 ≤ 0xBF
  else if b = 0xF4 then 0x80 ≤ b2 && b2 ≤ 0x8F
  else isCont b2

/-- Python `bytes.decode("utf-8", errors="replace")`: each maximal
subpart of an ill-formed sequence becomes one U+FFFD, per the Unicode
recommendation CPython follows. -/
def utf8DecodeReplace : List Nat → List Char
  | [] => []
  | b :: rest =>
    if b < 0x80 then Char.ofNat b :: utf8DecodeReplace rest
    else if 0xC2 ≤ b && b ≤ 0xDF then
      match rest with
      | [] => [replChar]
      | b2 :: r2 =>
        if isCont b2 then
          Char.ofNat ((b - 0xC0) * 64 + (b2 - 0x80)) :: utf8DecodeReplace r2
        else replChar :: utf8DecodeReplace (b2 :: r2)
    else if 0xE0 ≤ b && b ≤ 0xEF then
      match rest with
      | [] => [replChar]
      | b2 :: r2 =>
        if cont2of3 b b2 then
          match r2 with
          | [] => [replChar]
          | b3 :: r3 =>
            if isCont b3 then
              Char.ofNat ((b - 0xE0) * 4096 + (b2 - 0x80) * 64 + (b3 - 0x80)) ::
                utf8DecodeReplace r3
            else replChar :: utf8DecodeReplace (b3 :: r3)
        else replChar :: utf8DecodeReplace (b2 :: r2)
    else if 0xF0 ≤ b && b ≤ 0xF4 then
      match rest with
      | [] => [replChar]
      | b2 :: r2 =>
        if cont2of4 b b2 then
          match r2 with
          | [] => [replChar]
          | b3 :: r3 =>
            if isCont b3 then
              match r3 with
              | [] => [replChar]
              | b4 :: r4 =>
                if isCont b4 then
                  Char.ofNat
                    ((b - 0xF0) * 262144 + (b2 - 0x80) * 4096 +
                      (b3 - 0x80) * 64 + (b4 - 0x80)) :: utf8DecodeReplace r4
                else replChar :: utf8DecodeReplace (b4 :: r4)
            else replChar :: utf8DecodeReplace (b3 :: r3)
        else replChar :: utf8DecodeReplace (b2 :: r2)
    else replChar :: utf8DecodeReplace rest

/-- UTF-8 encoding of one character. -/
def utf8EncodeChar (c : Char) : List Nat :=
  let n := c.toNat
  if n < 0x80 then [n]
  else if n < 0x800 then [0xC0 + n / 64, 0x80 + n % 64]
  else if n < 0x10000 then
    [0xE0 + n / 4096, 0x80 + (n / 64) % 64, 0x80 + n % 64]
  else
    [0xF0 + n / 262144, 0x80 + (n / 4096) % 64, 0x80 + (n / 64) % 64, 0x80 + n % 64]

/-- UTF-8 encoding of a text, used to compare captured text with relayed
bytes byte-for-byte. -/
def utf8Encode (s : List Char) : List Nat := (s.map utf8EncodeChar).flatten

/-- The read/relay/buffer loop of `cmd_run`: `chunks` are the successive
values returned by `os.read(master, 1024)`.  Each non-empty chunk is
written raw to stdout (first component) and its decoded text appended to
`outbuf` (second component); an empty read breaks the loop. -/
def cmd_run_loop : List (List Nat) → List Nat × List Char
  | [] => ([], [])
  | d :: rest =>
    if d.isEmpty then ([], [])
    else
      let r := cmd_run_loop rest
      (d ++ r.fst, utf8DecodeReplace d ++ r.snd)

-- **************** RECOVERY ORCHESTRATOR (src/uvi.py lines 83-91, 202-228) ****************

/-- Trace events of one program invocation, tagged by call site: the
initial `cmd_run(cmd)`, the remediation `cmd_run(f"uv python install
{v}")`, the retry `cmd_run(cmd)`, the classifier call, and the consent
prompt answer. -/
inductive Event where
  | ranInit (cmd : List Char) (code : Nat)
  | ranRem (cmd : List Char) (code : Nat)
  | ranRetry (cmd : List Char) (code : Nat)
  | classified (res : Option (List Char))
  | asked (ans : Bool)
deriving DecidableEq

/-- Environment of one invocation: `exec k` is the `(exit code, captured
output)` of the `k`-th child process spawned (in call order), and
`consent` is the stream of raw answers to the `install Python V?`
prompt. -/
structure Env where
  exec : Nat → Nat × List Char
  consent : List (List Char)

/-- Command string `f"uv python install {missing_ver}"`. -/
def installCmd (v : List Char) : List Char := chars "uv python install " ++ v

/-- Source `install_missing_ver(missing_ver)`: ask consent; on yes run
the install command, and `sys.exit(install_code)` when it fails; on no
return without doing anything.  Result: `none` when blocked on input,
otherwise `(early exit code if any, events, next child index)`. -/
def install_missing_ver (env : Env) (k : Nat) (v : List Char) :
    Option (Option Nat × List Event × Nat) :=
  match yn_inp env.consent with
  | none => none
  | some true =>
    let c2 := (env.exec k).fst
    if c2 ≠ 0 then some (some c2, [.asked true, .ranRem (installCmd v) c2], k + 1)
    else some (none, [.asked true, .ranRem (installCmd v) c2], k + 1)
  | some false => some (none, [.asked false], k)

/-- Lines 216-224 of `main`: run `cmd`; when it exits non-zero, classify
the captured output; on a match call `install_missing_ver` and then
re-run `cmd` unconditionally; finally `sys.exit` with the last exit
code.  An early `sys.exit` inside `install_missing_ver` propagates. -/
def runMain (cmd : List Char) (env : Env) : Option (Nat × List Event) :=
  let c1 := (env.exec 0).fst
  let out1 := (env.exec 0).snd
  if c1 ≠ 0 then
    match detect_missing_ver out1 with
    | some v =>
      match install_missing_ver env 1 v with
      | none => none
      | some (some ec, evs, _) =>
        some (ec, .ranInit cmd c1 :: .classified (some v) :: evs)
      | some (none, evs, k) =>
        let c3 := (env.exec k).fst
        some (c3, (.ranInit cmd c1 :: .classified (some v) :: evs) ++ [.ranRetry cmd c3])
    | none => some (c1, [.ranInit cmd c1, .classified none])
  else some (c1, [.ranInit cmd c1])

-- **************** COMMAND ASSEMBLER + FULL MAIN (src/uvi.py lines 202-224) ****************

/-- Command string of the `script` branch:
`f"uv init {pn} --{pt} --python {ver}"`. -/
def script_cmd (pn pt ver : List Char) : List Char :=
  chars "uv init " ++ pn ++ chars " --" ++ pt ++ chars " --python " ++ ver

/-- Command string of the non-`script` branch: `f"uv init {pn} --{pt}
--python {ver} --description {desc} --vcs {vcs} {readme_flag}"`. -/
def full_cmd (pn pt ver desc vcs readmeFlag : List Char) : List Char :=
  script_cmd pn pt ver ++ chars " --description " ++ desc ++ chars " --vcs " ++
    vcs ++ chars " " ++ readmeFlag

/-- Source `main()` up to the final `sys.exit`: parse arguments, collect
answers, assemble the command, then hand over to the execution and
recovery flow of `runMain`.  `verAns`, `descAns`, `vcsAns`, `rmAns` are
the raw answer streams of the respective prompts; the result is `(exit
code, printed parse output, child-process event trace)`, or `none` when
the program blocks on an exhausted answer stream. -/
def uvi_main (argv verAns : List (List Char)) (descAns : List Char)
    (vcsAns rmAns : List (List Char)) (env : Env) :
    Option (Nat × List Printed × List Event) :=
  match parse_args argv with
  | .exit code printed => some (code, printed, [])
  | .ok pt pn =>
    match get_ver verAns with
    | none => none
    | some ver =>
      if pt = chars "script" then
        match runMain (script_cmd pn pt ver) env with
        | none => none
        | some (c, evs) => some (c, [], evs)
      else
        let desc := pyRepr (strip descAns)
        match yn_inp vcsAns, yn_inp rmAns with
        | some vb, some rb =>
          let vcs := if vb then squote :: chars "git" ++ [squote]
                     else squote :: chars "none" ++ [squote]
          let rflag := if rb then [] else chars "--no-readme"
          match runMain (full_cmd pn pt ver desc vcs rflag) env with
          | none => none
          | some (c, evs) => some (c, [], evs)
        | _, _ => none

-- **************** SPEC-SIDE PREDICATES AND CONCRETE INPUTS ****************

/-- A version string as matched by the regex group `(\d+\.\d+)`: a
non-empty digit run, a dot, a non-empty digit run. -/
def VerShape (v : List Char) : Prop :=
  ∃ d1 d2 : List Char, d1 ≠ [] ∧ d2 ≠ [] ∧
    (∀ c ∈ d1, c.isDigit = true) ∧ (∀ c ∈ d2, c.isDigit = true) ∧
    v = d1 ++ '.' :: d2

/-- Meaning of the classifier pattern as a text decomposition: the text
contains `frag1` immediately followed by the bound version `v`, then
anywhere later `frag2`, then anywhere later the back-referencing
`frag3 v`. -/
def SpecMatch (t v : List Char) : Prop :=
  ∃ a b c d, t = a ++ (frag1 ++ (v ++ (b ++ (frag2 ++ (c ++ (frag3 v ++ d))))))

/-- Condition claimed by the spec sentence for C3 (no middle fragment):
the text contains `No interpreter found for Python V` followed somewhere
later by `install V` for the same `V`. -/
def ClaimedCond (t : List Char) : Prop :=
  ∃ v a b c, VerShape v ∧
    t = a ++ (frag1 ++ (v ++ (b ++ ((chars "install " ++ v) ++ c))))

/-- Trace predicate: the event is the classifier call. -/
def isClassifiedEv : Event → Bool
  | .classified _ => true
  | _ => false

/-- Trace predicate: the event is the remediation execution. -/
def isRemEv : Event → Bool
  | .ranRem _ _ => true
  | _ => false

/-- Trace predicate: the event is the retry execution. -/
def isRetryEv : Event → Bool
  | .ranRetry _ _ => true
  | _ => false

/-- Boolean check that nothing at all happens after a retry event (so in
particular no further classification pass). -/
def noEventAfterRetry : List Event → Bool
  | [] => true
  | e :: rest => if isRetryEv e then rest.isEmpty else noEventAfterRetry rest

/-- Captured output carrying the missing-interpreter signature for
version `3.12`, used as concrete failing input. -/
def sigOutput : List Char :=
  chars "No interpreter found for Python 3.12. A managed Python download is available, use `uv python install 3.12`"

/-- Concrete command used in concrete scenarios. -/
def demoCmd : List Char := chars "uv init demo --app"

/-- Environment in which the original command fails with the signature
(exit code 1), the user declines consent, and any further child process
exits with code 7. -/
def declineEnv : Env :=
  { exec := fun k => if k = 0 then (1, sigOutput) else (7, []),
    consent := [chars "n"] }

/-- Environment in which the original command fails with the signature,
the user consents after one invalid answer, and remediation fails with
exit code 5. -/
def remFailEnv : Env :=
  { exec := fun k => if k = 0 then (1, sigOutput) else (5, []),
    consent := [chars "maybe", chars "y"] }
-- **************** HELPER LEMMAS: ORCHESTRATOR ****************

/-- Enumeration of the possible results of `install_missing_ver`. -/
theorem install_missing_ver_cases (env : Env) (k : Nat) (v : List Char) :
    install_missing_ver env k v = none ∨
    install_missing_ver env k v = some (none, [.asked false], k) ∨
    (∃ c2, c2 ≠ 0 ∧
      install_missing_ver env k v =
        some (some c2, [.asked true, .ranRem (installCmd v) c2], k + 1)) ∨
    install_missing_ver env k v =
      some (none, [.asked true, .ranRem (installCmd v) 0], k + 1) := by
  cases hyn : yn_inp env.consent with
  | none => left; simp [install_missing_ver, hyn]
  | some b =>
    cases b with
    | false => right; left; simp [install_missing_ver, hyn]
    | true =>
      by_cases hc : (env.exec k).fst = 0
      · right; right; right; simp [install_missing_ver, hyn, hc]
      · right; right; left
        exact ⟨(env.exec k).fst, hc, by simp [install_missing_ver, hyn, hc]⟩

/-- C6: if the initial execution exits 0, `runMain` reports exit code 0
and the trace is the single initial run: no classification, no consent
prompt, no remediation, no retry. -/
theorem uvi_C6_success_no_recovery (cmd : List Char) (env : Env) (out : List Char)
    (h : env.exec 0 = (0, out)) :
    runMain cmd env = some (0, [Event.ranInit cmd 0]) := by
  simp [runMain, h]

/-- Witness for C6 at a concrete environment. -/
theorem uvi_C6_witness :
    runMain demoCmd { exec := fun _ => (0, []), consent := [] } =
      some (0, [Event.ranInit demoCmd 0]) :=
  uvi_C6_success_no_recovery demoCmd _ [] rfl

/-- C4: when the original command fails with a classified signature, the
user consents, and the remediation run exits with a non-zero code, the
program exits with exactly that code and the trace ends at the
remediation run: the original command is never retried. -/
theorem uvi_C4_remediation_failure_fatal (cmd : List Char) (env : Env)
    (v out2 : List Char) (c2 : Nat)
    (h1 : (env.exec 0).fst ≠ 0)
    (h2 : detect_missing_ver (env.exec 0).snd = some v)
    (h3 : yn_inp env.consent = some true)
    (h4 : env.exec 1 = (c2, out2))
    (h5 : c2 ≠ 0) :
    runMain cmd env =
      some (c2, [.ranInit cmd (env.exec 0).fst, .classified (some v), .asked true,
                 .ranRem (installCmd v) c2]) := by
  simp [runMain, install_missing_ver, h1, h2, h3, h4, h5]

/-- Witness for C4: remediation fails with code 5, the program exits 5,
and the trace has no retry event. -/
theorem uvi_C4_witness :
    runMain demoCmd remFailEnv =
      some (5, [.ranInit demoCmd 1, .classified (some (chars "3.12")), .asked true,
                .ranRem (installCmd (chars "3.12")) 5]) := by
  have h := uvi_C4_remediation_failure_fatal demoCmd remFailEnv (chars "3.12") [] 5
    (by decide) (by decide) (by decide) (by decide) (by decide)
  exact h.trans (by decide)

/-- C5: in every completed invocation, the trace contains at most one
remediation run, at most one retry, at most one classification pass, and
nothing at all follows a retry event (in particular no further
classification pass, even if the retry fails again). -/
theorem uvi_C5_one_shot_recovery (cmd : List Char) (env : Env) (c : Nat)
    (evs : List Event) (h : runMain cmd env = some (c, evs)) :
    (evs.filter isRemEv).length ≤ 1 ∧
    (evs.filter isRetryEv).length ≤ 1 ∧
    (evs.filter isClassifiedEv).length ≤ 1 ∧
    noEventAfterRetry evs = true := by
  by_cases h1 : (env.exec 0).fst = 0
  · simp [runMain, h1] at h
    obtain ⟨-, rfl⟩ := h
    simp [isRemEv, isRetryEv, isClassifiedEv, noEventAfterRetry]
  · cases hd : detect_missing_ver (env.exec 0).snd with
    | none =>
      simp [runMain, h1, hd] at h
      obtain ⟨-, rfl⟩ := h
      simp [isRemEv, isRetryEv, isClassifiedEv, noEventAfterRetry]
    | some v =>
      rcases install_missing_ver_cases env 1 v with hi | hi | ⟨c2, hc2, hi⟩ | hi
      · simp [runMain, h1, hd, hi] at h
      · simp [runMain, h1, hd, hi] at h
        obtain ⟨-, rfl⟩ := h
        simp [isRemEv, isRetryEv, isClassifiedEv, noEventAfterRetry]
      · simp [runMain, h1, hd, hi] at h
        obtain ⟨-, rfl⟩ := h
        simp [isRemEv, isRetryEv, isClassifiedEv, noEventAfterRetry]
      · simp [runMain, h1, hd, hi] at h
        obtain ⟨-, rfl⟩ := h
        simp [isRemEv, isRetryEv, isClassifiedEv, noEventAfterRetry]

/-- Witness for C5 at the concrete remediate-and-retry environment. -/
theorem uvi_C5_witness :
    ∃ c evs, runMain demoCmd declineEnv = some (c, evs) ∧
      (evs.filter isRemEv).length ≤ 1 ∧
      (evs.filter isRetryEv).length ≤ 1 ∧
      (evs.filter isClassifiedEv).length ≤ 1 ∧
      noEventAfterRetry evs = true := by
  refine ⟨7, [.ranInit demoCmd 1, .classified (some (chars "3.12")), .asked false,
    .ranRetry demoCmd 7], by decide, ?_⟩
  exact uvi_C5_one_shot_recovery demoCmd declineEnv 7 _ (by decide)

/-- C1 evaluation: the original command fails with exit code 1 and the
classified signature for 3.12, the user declines consent, and yet the
original command is re-executed (as a retry, here exiting 7) and the
program exits with the retry exit code 7 instead of the original 1. -/
theorem uvi_C1_decline_still_retries :
    runMain demoCmd declineEnv =
      some (7, [.ranInit demoCmd 1, .classified (some (chars "3.12")), .asked false,
                .ranRetry demoCmd 7]) := by
  decide

-- **************** C10, C9, C8: DEFAULTS AND ARGUMENT PARSING ****************

/-- C10: an empty version answer resolves to exactly `3.13`, which is
the element at index `length - 2` (Python index `-2`) of the supported
range `3.7`–`3.14`, i.e. the second-highest supported version, and not
the highest one (`3.14`). -/
theorem uvi_C10_default_is_second_highest :
    get_ver [[]] = some (chars "3.13") ∧
    defaultVer = chars "3.13" ∧
    supportedVers =
      [chars "3.7", chars "3.8", chars "3.9", chars "3.10", chars "3.11",
       chars "3.12", chars "3.13", chars "3.14"] ∧
    defaultVer = supportedVers.getD (supportedVers.length - 2) [] ∧
    defaultVer ≠ supportedVers.getD (supportedVers.length - 1) [] := by
  decide

/-- C9: a help flag anywhere in the argument vector makes the program
print the help text and exit 0 whatever else is present; with no help
flag, a version flag anywhere prints the version banner and exits 0.
Both take precedence over every argument-count or validity error, and no
child process is ever spawned. -/
theorem uvi_C9_flag_precedence :
    (∀ argv : List (List Char), (chars "-h" ∈ argv ∨ chars "--help" ∈ argv) →
      parse_args argv = .exit 0 [.help] ∧
      ∀ verAns descAns vcsAns rmAns env,
        uvi_main argv verAns descAns vcsAns rmAns env = some (0, [.help], [])) ∧
    (∀ argv : List (List Char), chars "-h" ∉ argv → chars "--help" ∉ argv →
      (chars "-v" ∈ argv ∨ chars "--version" ∈ argv) →
      parse_args argv = .exit 0 [.version] ∧
      ∀ verAns descAns vcsAns rmAns env,
        uvi_main argv verAns descAns vcsAns rmAns env = some (0, [.version], [])) := by
  constructor
  · intro argv h
    have hp : parse_args argv = .exit 0 [.help] := by
      unfold parse_args
      rw [if_pos h]
    exact ⟨hp, fun _ _ _ _ _ => by simp [uvi_main, hp]⟩
  · intro argv h1 h2 h3
    have hp : parse_args argv = .exit 0 [.version] := by
      unfold parse_args
      rw [if_neg (by exact not_or.mpr ⟨h1, h2⟩), if_pos h3]
    exact ⟨hp, fun _ _ _ _ _ => by simp [uvi_main, hp]⟩

/-- Witness for C9: three positionals plus `--help` exit 0 with the help
text, not 2; and a lone `-v` exits 0 with the version banner. -/
theorem uvi_C9_witness :
    uvi_main [chars "uvi.py", chars "x", chars "y", chars "z", chars "--help"]
      [] [] [] [] { exec := fun _ => (0, []), consent := [] } =
      some (0, [.help], []) ∧
    uvi_main [chars "uvi.py", chars "-v"]
      [] [] [] [] { exec := fun _ => (0, []), consent := [] } =
      some (0, [.version], []) := by
  constructor
  · exact (uvi_C9_flag_precedence.1 _ (by decide)).2 [] [] [] [] _
  · exact (uvi_C9_flag_precedence.2 _ (by decide) (by decide) (by decide)).2 [] [] [] [] _

/-- Every valid project type is one of the ten fixed strings. -/
theorem valid_type_enum (t : List Char) (h : valid_proj_type t = true) :
    t = chars "b" ∨ t = chars "bare" ∨ t = chars "p" ∨ t = chars "package" ∨
    t = chars "a" ∨ t = chars "app" ∨ t = chars "l" ∨ t = chars "lib" ∨
    t = chars "s" ∨ t = chars "script" := by
  simp [valid_proj_type, PROJ_TYPES] at h
  tauto

/-- C8: one positional argument that is a valid project type (and no
help/version flag anywhere, the program name being arbitrary but not a
flag) reports the usage error `missing arg: project name` and exits with
code 2; the event trace of the full program is empty, so no child
process is ever spawned. -/
theorem uvi_C8_missing_name (p t : List Char) (ht : valid_proj_type t = true)
    (hp1 : p ≠ chars "-h") (hp2 : p ≠ chars "--help")
    (hp3 : p ≠ chars "-v") (hp4 : p ≠ chars "--version") :
    parse_args [p, t] = .exit 2 [.err (chars "missing arg: project name")] ∧
    ∀ verAns descAns vcsAns rmAns env,
      uvi_main [p, t] verAns descAns vcsAns rmAns env =
        some (2, [.err (chars "missing arg: project name")], []) := by
  have ht4 : t ≠ chars "-h" ∧ t ≠ chars "--help" ∧ t ≠ chars "-v" ∧
      t ≠ chars "--version" := by
    rcases valid_type_enum t ht with rfl | rfl | rfl | rfl | rfl | rfl | rfl | rfl | rfl | rfl <;>
      exact ⟨by decide, by decide, by decide, by decide⟩
  obtain ⟨ht1, ht2, ht3, ht4⟩ := ht4
  have hA : ¬(chars "-h" ∈ [p, t] ∨ chars "--help" ∈ [p, t]) := by
    simp only [List.mem_cons, List.not_mem_nil, or_false, not_or]
    exact ⟨⟨fun h => hp1 h.symm, fun h => ht1 h.symm⟩,
           ⟨fun h => hp2 h.symm, fun h => ht2 h.symm⟩⟩
  have hB : ¬(chars "-v" ∈ [p, t] ∨ chars "--version" ∈ [p, t]) := by
    simp only [List.mem_cons, List.not_mem_nil, or_false, not_or]
    exact ⟨⟨fun h => hp3 h.symm, fun h => ht3 h.symm⟩,
           ⟨fun h => hp4 h.symm, fun h => ht4 h.symm⟩⟩
  have hp : parse_args [p, t] = .exit 2 [.err (chars "missing arg: project name")] := by
    unfold parse_args
    rw [if_neg hA, if_neg hB]
    simp [ht]
  exact ⟨hp, fun _ _ _ _ _ => by simp [uvi_main, hp]⟩

/-- Witness for C8 at concrete arguments. -/
theorem uvi_C8_witness :
    uvi_main [chars "uvi.py", chars "a"] [] [] [] []
      { exec := fun _ => (0, []), consent := [] } =
      some (2, [.err (chars "missing arg: project name")], []) :=
  (uvi_C8_missing_name (chars "uvi.py") (chars "a") (by decide) (by decide)
    (by decide) (by decide) (by decide)).2 [] [] [] [] _

-- **************** C7: VERSION PROMPT AND SCRIPT COMMAND ****************

/-- Every supported version string is non-empty. -/
theorem supported_ne_nil (x : List Char) (h : x ∈ supportedVers) : x ≠ [] := by
  have e : supportedVers =
      [chars "3.7", chars "3.8", chars "3.9", chars "3.10", chars "3.11",
       chars "3.12", chars "3.13", chars "3.14"] := by decide
  rw [e] at h
  simp at h
  rcases h with rfl | rfl | rfl | rfl | rfl | rfl | rfl | rfl <;> decide

/-- Invalid (non-empty, unsupported) answers are skipped by the
`get_ver` re-prompt loop. -/
theorem get_ver_skips_invalid : ∀ (bads rest : List (List Char)),
    (∀ a ∈ bads, lower (strip a) ≠ [] ∧ lower (strip a) ∉ supportedVers) →
    get_ver (bads ++ rest) = get_ver rest
  | [], _, _ => rfl
  | a :: bads, rest, h => by
    have ha := h a (by simp)
    have ih := get_ver_skips_invalid bads rest (fun x hx => h x (by simp [hx]))
    simp only [List.cons_append, get_ver]
    rw [if_neg ha.1, if_neg ha.2]
    exact ih

/-- C7: an empty version answer resolves to the default `3.13`; with
type `script` and name `foo` the assembled command is exactly
`uv init foo --script --python 3.13`, which contains the substrings
`--script` and `3.13` and no description, vcs or readme flag; invalid
non-empty answers print an error and re-prompt, and the loop returns the
first valid answer. -/
theorem uvi_C7_script_scenario :
    (∀ rest, get_ver ([] :: rest) = some defaultVer) ∧
    defaultVer = chars "3.13" ∧
    script_cmd (chars "foo") (chars "script") defaultVer =
      chars "uv init foo --script --python 3.13" ∧
    ((findSub (chars "--script")
        (script_cmd (chars "foo") (chars "script") defaultVer)).isSome = true ∧
     (findSub (chars "3.13")
        (script_cmd (chars "foo") (chars "script") defaultVer)).isSome = true ∧
     findSub (chars "--description")
        (script_cmd (chars "foo") (chars "script") defaultVer) = none ∧
     findSub (chars "--vcs")
        (script_cmd (chars "foo") (chars "script") defaultVer) = none ∧
     findSub (chars "--no-readme")
        (script_cmd (chars "foo") (chars "script") defaultVer) = none) ∧
    (∀ bads rest, (∀ a ∈ bads, lower (strip a) ≠ [] ∧ lower (strip a) ∉ supportedVers) →
      get_ver (bads ++ rest) = get_ver rest) ∧
    (∀ a rest, lower (strip a) ∈ supportedVers →
      get_ver (a :: rest) = some (lower (strip a))) := by
  refine ⟨fun rest => rfl, by decide, by decide, by decide, get_ver_skips_invalid, ?_⟩
  intro a rest h
  have hne := supported_ne_nil _ h
  simp only [get_ver]
  rw [if_neg hne, if_pos h]

/-- Witness for C7: the invalid answer `4.0` is skipped, then the valid
(whitespace-padded) answer `3.10` is returned stripped. -/
theorem uvi_C7_witness :
    get_ver [chars "4.0", chars " 3.10 "] = some (chars "3.10") := by
  have h1 := uvi_C7_script_scenario.2.2.2.2.1 [chars "4.0"] [chars " 3.10 "] (by decide)
  have h2 := uvi_C7_script_scenario.2.2.2.2.2 (chars " 3.10 ") [] (by decide)
  calc get_ver [chars "4.0", chars " 3.10 "]
      = get_ver [chars " 3.10 "] := h1
    _ = some (lower (strip (chars " 3.10 "))) := h2
    _ = some (chars "3.10") := by decide

-- **************** C2: LIVE RELAY VS CAPTURED OUTPUT ****************

/-- UTF-8 encoding distributes over append. -/
theorem utf8Encode_append (a b : List Char) :
    utf8Encode (a ++ b) = utf8Encode a ++ utf8Encode b := by
  simp [utf8Encode]

/-- Counterexample to C2 as stated: for the single relayed chunk
`[0xFF]` (not valid UTF-8), the captured text re-encodes to the
replacement character, not to the relayed byte, so relayed bytes and
captured output are not byte-for-byte identical. -/
theorem uvi_C2_counterexample :
    utf8Encode (cmd_run_loop [[255]]).snd ≠ (cmd_run_loop [[255]]).fst := by
  decide

/-- C2 amended: for every chunk sequence (non-empty chunks, since an
empty read ends the loop), the relayed bytes are the in-order
concatenation of the chunks and the captured text is the in-order
concatenation of the per-chunk UTF-8 decodings with replacement — no
chunk is dropped, reordered or duplicated; whenever every chunk decodes
losslessly (in particular for valid, chunk-aligned UTF-8), captured and
relayed output are byte-for-byte identical. -/
theorem uvi_C2_relay_capture (chunks : List (List Nat))
    (hne : ∀ ch ∈ chunks, ch ≠ []) :
    (cmd_run_loop chunks).fst = chunks.flatten ∧
    (cmd_run_loop chunks).snd = (chunks.map utf8DecodeReplace).flatten ∧
    ((∀ ch ∈ chunks, utf8Encode (utf8DecodeReplace ch) = ch) →
      utf8Encode (cmd_run_loop chunks).snd = (cmd_run_loop chunks).fst) := by
  induction chunks with
  | nil => exact ⟨rfl, rfl, fun _ => rfl⟩
  | cons d rest ih =>
    have hd : d ≠ [] := hne d (by simp)
    have hde : d.isEmpty = false := by
      cases d with
      | nil => exact absurd rfl hd
      | cons x xs => rfl
    obtain ⟨ih1, ih2, ih3⟩ := ih (fun ch h => hne ch (by simp [h]))
    refine ⟨?_, ?_, ?_⟩
    · simp [cmd_run_loop, hde, ih1]
    · simp [cmd_run_loop, hde, ih2]
    · intro hv
      have hd2 := hv d (by simp)
      have hrest := ih3 (fun ch h => hv ch (by simp [h]))
      simp [cmd_run_loop, hde, utf8Encode_append, hd2, hrest]

/-- Witness for C2 amended at a concrete valid-ASCII chunk sequence. -/
theorem uvi_C2_witness :
    utf8Encode (cmd_run_loop [[104, 105], [33]]).snd =
      (cmd_run_loop [[104, 105], [33]]).fst :=
  (uvi_C2_relay_capture [[104, 105], [33]] (by decide)).2.2 (by decide)

-- **************** C3 HELPER LEMMAS: SUBSTRING SEARCH ****************

/-- Characterisation of `List.isPrefixOf` by a decomposition. -/
theorem isPrefixOf_exists (s : List Char) : ∀ t, s.isPrefixOf t = true ↔ ∃ u, t = s ++ u := by
  induction s with
  | nil => intro t; simp [List.isPrefixOf]
  | cons a s ih =>
    intro t
    cases t with
    | nil => simp [List.isPrefixOf]
    | cons b t =>
      simp only [List.isPrefixOf, Bool.and_eq_true, beq_iff_eq, List.cons_append]
      constructor
      · rintro ⟨rfl, h⟩
        rcases (ih t).mp h with ⟨u, rfl⟩
        exact ⟨u, rfl⟩
      · rintro ⟨u, hu⟩
        injection hu with h1 h2
        exact ⟨h1.symm, (ih t).mpr ⟨u, h2⟩⟩

/-- Soundness of `findSub`: a result decomposes the text around an
occurrence of the needle. -/
theorem findSub_sound (s : List Char) :
    ∀ t r, findSub s t = some r → ∃ a, t = a ++ s ++ r := by
  intro t
  induction t with
  | nil =>
    intro r h
    unfold findSub at h
    split at h
    case isTrue hp =>
      injection h with h2
      rcases (isPrefixOf_exists s []).mp hp with ⟨u, hu⟩
      rcases List.append_eq_nil.mp hu.symm with ⟨rfl, rfl⟩
      exact ⟨[], by simp [← h2]⟩
    case isFalse => exact absurd h (by simp)
  | cons c t ih =>
    intro r h
    unfold findSub at h
    split at h
    case isTrue hp =>
      injection h with h2
      rcases (isPrefixOf_exists s (c :: t)).mp hp with ⟨u, hu⟩
      have hdrop : (c :: t).drop s.length = u := by
        rw [hu]; exact List.drop_left s u
      refine ⟨[], ?_⟩
      rw [hu, ← h2, hdrop]
      simp
    case isFalse =>
      rcases ih r h with ⟨a, ha⟩
      exact ⟨c :: a, by simp [ha]⟩

/-- Completeness of `findSub`: when the needle occurs, the search
succeeds, and everything after the given occurrence is a suffix of the
returned remainder (the search may only find an earlier occurrence). -/
theorem findSub_complete (s : List Char) :
    ∀ a t b, t = a ++ s ++ b → ∃ r x, findSub s t = some r ∧ r = x ++ b := by
  intro a
  induction a with
  | nil =>
    intro t b ht
    simp only [List.nil_append] at ht
    cases t with
    | nil =>
      rcases List.append_eq_nil.mp ht.symm with ⟨rfl, rfl⟩
      exact ⟨[], [], by simp [findSub, List.isPrefixOf], rfl⟩
    | cons c t' =>
      have hp : s.isPrefixOf (c :: t') = true :=
        (isPrefixOf_exists s (c :: t')).mpr ⟨b, ht⟩
      refine ⟨b, [], ?_, by simp⟩
      unfold findSub
      rw [if_pos hp, ht]
      simp [List.drop_left]
  | cons d a' ih =>
    intro t b ht
    cases t with
    | nil => simp at ht
    | cons c t' =>
      unfold findSub
      by_cases hps : s.isPrefixOf (c :: t') = true
      · rw [if_pos hps]
        rcases (isPrefixOf_exists s (c :: t')).mp hps with ⟨u, hu⟩
        have hdrop : (c :: t').drop s.length = u := by
          rw [hu]; exact List.drop_left s u
        have hb : u.drop (d :: a').length = b := by
          have h1 : (c :: t').drop ((d :: a') ++ s).length = b := by
            rw [ht]; exact List.drop_left _ b
          have h2 : (c :: t').drop ((d :: a') ++ s).length =
              ((c :: t').drop s.length).drop (d :: a').length := by
            rw [List.length_append, List.drop_drop, Nat.add_comm]
          rw [h2, hdrop] at h1
          exact h1
        refine ⟨u, u.take (d :: a').length, by rw [hdrop], ?_⟩
        rw [← hb]
        exact (List.take_append_drop _ u).symm
      · rw [if_neg hps]
        have ht2 : c :: t' = d :: (a' ++ s ++ b) := by
          rw [ht]; simp
        injection ht2 with h1 h2
        exact ih t' b h2

/-- Characterisation of `checkTail`: the tail text contains `frag2`
followed somewhere later by `frag3 v`. -/
theorem checkTail_iff (v rest : List Char) :
    checkTail v rest = true ↔
      ∃ b c d, rest = b ++ (frag2 ++ (c ++ (frag3 v ++ d))) := by
  constructor
  · intro h
    unfold checkTail at h
    cases hr2 : findSub frag2 rest with
    | none => rw [hr2] at h; exact absurd h (by simp)
    | some r2 =>
      rw [hr2] at h
      rcases Option.isSome_iff_exists.mp h with ⟨r3, hr3⟩
      rcases findSub_sound _ _ _ hr2 with ⟨b, hb⟩
      rcases findSub_sound _ _ _ hr3 with ⟨c, hc⟩
      exact ⟨b, c, r3, by rw [hb, hc]; simp⟩
  · rintro ⟨b, c, d, rfl⟩
    have hshape : b ++ (frag2 ++ (c ++ (frag3 v ++ d))) =
        b ++ frag2 ++ (c ++ (frag3 v ++ d)) := by simp
    rcases findSub_complete frag2 b _ (c ++ (frag3 v ++ d)) hshape with ⟨r2, x, hr2, hx⟩
    unfold checkTail
    rw [hr2]
    have hshape2 : r2 = (x ++ c) ++ frag3 v ++ d := by rw [hx]; simp
    rcases findSub_complete (frag3 v) (x ++ c) r2 d hshape2 with ⟨r3, y, hr3, hy⟩
    simp [hr3]

/-- Soundness of the second-digit-run backtracking loop. -/
theorem tryVer_sound (d1 d2 t3 : List Char) :
    ∀ k v, tryVer d1 d2 t3 k = some v →
      ∃ j, 1 ≤ j ∧ j ≤ k ∧ v = d1 ++ '.' :: d2.take j ∧
        checkTail v (t3.drop j) = true := by
  intro k
  induction k with
  | zero => intro v h; exact absurd h (by simp [tryVer])
  | succ k ih =>
    intro v h
    unfold tryVer at h
    split at h
    case isTrue hc =>
      injection h with h2
      exact ⟨k + 1, by omega, Nat.le_refl _, h2.symm, h2 ▸ hc⟩
    case isFalse =>
      rcases ih v h with ⟨j, h1, h2, h3, h4⟩
      exact ⟨j, h1, by omega, h3, h4⟩

/-- Completeness of the second-digit-run backtracking loop. -/
theorem tryVer_complete (d1 d2 t3 : List Char) :
    ∀ k j, 1 ≤ j → j ≤ k →
      checkTail (d1 ++ '.' :: d2.take j) (t3.drop j) = true →
      (tryVer d1 d2 t3 k).isSome = true := by
  intro k
  induction k with
  | zero => intro j h1 h2 _; omega
  | succ k ih =>
    intro j h1 h2 hc
    unfold tryVer
    split
    case isTrue => simp
    case isFalse hfc =>
      rcases Nat.lt_or_ge j (k + 1) with hlt | hge
      · exact ih j h1 (by omega) hc
      · have hj : j = k + 1 := by omega
        subst hj
        exact absurd hc hfc

-- **************** C3 HELPER LEMMAS: TAKEWHILE / DROPWHILE ****************

/-- Elements of `takeWhile p` satisfy `p`. -/
theorem takeWhile_mem_true (p : Char → Bool) :
    ∀ (l : List Char) c, c ∈ l.takeWhile p → p c = true := by
  intro l
  induction l with
  | nil => intro c h; simp [List.takeWhile] at h
  | cons a l ih =>
    intro c h
    by_cases hp : p a = true
    · rw [List.takeWhile_cons, if_pos hp] at h
      rcases List.mem_cons.mp h with rfl | h2
      · exact hp
      · exact ih c h2
    · rw [List.takeWhile_cons, if_neg hp] at h
      simp at h

/-- On a text made of `p`-true elements, a `p`-false element, and a
tail, `takeWhile p` returns exactly the initial run. -/
theorem takeWhile_run (p : Char → Bool) :
    ∀ (e : List Char) (x : Char) (z : List Char), (∀ c ∈ e, p c = true) →
      p x = false → (e ++ x :: z).takeWhile p = e := by
  intro e
  induction e with
  | nil => intro x z _ hx; simp [List.takeWhile_cons, hx]
  | cons a e ih =>
    intro x z h hx
    have ha : p a = true := h a (by simp)
    simp only [List.cons_append, List.takeWhile_cons, if_pos ha]
    rw [ih x z (fun c hc => h c (by simp [hc])) hx]

/-- Companion of `takeWhile_run` for `dropWhile`. -/
theorem dropWhile_run (p : Char → Bool) :
    ∀ (e : List Char) (x : Char) (z : List Char), (∀ c ∈ e, p c = true) →
      p x = false → (e ++ x :: z).dropWhile p = x :: z := by
  intro e
  induction e with
  | nil => intro x z _ hx; simp [List.dropWhile_cons, hx]
  | cons a e ih =>
    intro x z h hx
    have ha : p a = true := h a (by simp)
    simp only [List.cons_append, List.dropWhile_cons, if_pos ha]
    exact ih x z (fun c hc => h c (by simp [hc])) hx

/-- On an all-`p` prefix, `takeWhile` distributes over append. -/
theorem takeWhile_all_append (p : Char → Bool) :
    ∀ (e r : List Char), (∀ c ∈ e, p c = true) →
      (e ++ r).takeWhile p = e ++ r.takeWhile p := by
  intro e
  induction e with
  | nil => intro r _; simp
  | cons a e ih =>
    intro r h
    have ha : p a = true := h a (by simp)
    simp only [List.cons_append, List.takeWhile_cons, if_pos ha]
    rw [ih r (fun c hc => h c (by simp [hc]))]

-- **************** C3: SOUNDNESS AND COMPLETENESS OF THE CLASSIFIER ****************

/-- Generic: taking at most the length of the first part only sees the
first part. -/
theorem take_append_le {α : Type} :
    ∀ (n : Nat) (l1 l2 : List α), n ≤ l1.length → (l1 ++ l2).take n = l1.take n := by
  intro n
  induction n with
  | zero => intro l1 l2 _; simp
  | succ n ih =>
    intro l1 l2 h
    cases l1 with
    | nil => simp at h
    | cons a l1 =>
      simp only [List.cons_append, List.take_succ_cons]
      rw [ih l1 l2 (by simpa using h)]

/-- Soundness of `tryAfterFrag1`: any result is a well-shaped version
that is a prefix of the text, with a succeeding pattern tail after it. -/
theorem tryAfterFrag1_sound (t1 v : List Char) (h : tryAfterFrag1 t1 = some v) :
    VerShape v ∧ ∃ rest, t1 = v ++ rest ∧ checkTail v rest = true := by
  unfold tryAfterFrag1 at h
  by_cases hd1 : t1.takeWhile Char.isDigit = []
  · rw [if_pos hd1] at h; exact absurd h (by simp)
  · rw [if_neg hd1] at h
    cases hdw : t1.dropWhile Char.isDigit with
    | nil => rw [hdw] at h; exact absurd h (by simp)
    | cons c t3 =>
      rw [hdw] at h
      have h2 : (if c = '.' then
          tryVer (t1.takeWhile Char.isDigit) (t3.takeWhile Char.isDigit) t3
            (t3.takeWhile Char.isDigit).length
        else none) = some v := h
      by_cases hc : c = '.'
      · rw [if_pos hc] at h2
        subst hc
        rcases tryVer_sound _ _ _ _ _ h2 with ⟨j, hj1, hj2, hv, hct⟩
        have hsplit : t1 = t1.takeWhile Char.isDigit ++ ('.' :: t3) := by
          conv_lhs => rw [← @List.takeWhile_append_dropWhile _ Char.isDigit t1]
          rw [hdw]
        have hdig1 : ∀ x ∈ t1.takeWhile Char.isDigit, x.isDigit = true :=
          fun x hx => takeWhile_mem_true _ _ _ hx
        have hdig2 : ∀ x ∈ (t3.takeWhile Char.isDigit).take j, x.isDigit = true :=
          fun x hx => takeWhile_mem_true _ _ _ (List.take_subset _ _ hx)
        have htake_ne : (t3.takeWhile Char.isDigit).take j ≠ [] := by
          intro hemp
          have hlen := congrArg List.length hemp
          rw [List.length_take] at hlen
          simp only [List.length_nil] at hlen
          omega
        have htake_eq : (t3.takeWhile Char.isDigit).take j = t3.take j := by
          conv_rhs => rw [← @List.takeWhile_append_dropWhile _ Char.isDigit t3]
          rw [take_append_le j _ _ hj2]
        refine ⟨⟨t1.takeWhile Char.isDigit, (t3.takeWhile Char.isDigit).take j,
          hd1, htake_ne, hdig1, hdig2, hv⟩, t3.drop j, ?_, hct⟩
        rw [hv, htake_eq]
        calc t1 = t1.takeWhile Char.isDigit ++ ('.' :: t3) := hsplit
          _ = t1.takeWhile Char.isDigit ++ ('.' :: (t3.take j ++ t3.drop j)) := by
              rw [List.take_append_drop]
          _ = (t1.takeWhile Char.isDigit ++ '.' :: t3.take j) ++ t3.drop j := by simp
      · rw [if_neg hc] at h2; exact absurd h2 (by simp)

/-- Completeness of `tryAfterFrag1` on a text that starts with a
well-shaped version whose tail admits the pattern. -/
theorem tryAfterFrag1_complete (e1 e2 rest : List Char)
    (he1 : e1 ≠ []) (he2 : e2 ≠ [])
    (hd1 : ∀ c ∈ e1, c.isDigit = true) (hd2 : ∀ c ∈ e2, c.isDigit = true)
    (hct : checkTail (e1 ++ '.' :: e2) rest = true) :
    (tryAfterFrag1 (e1 ++ '.' :: (e2 ++ rest))).isSome = true := by
  have hdot : ('.' : Char).isDigit = false := by decide
  have htw : (e1 ++ '.' :: (e2 ++ rest)).takeWhile Char.isDigit = e1 :=
    takeWhile_run _ e1 '.' _ hd1 hdot
  have hdw : (e1 ++ '.' :: (e2 ++ rest)).dropWhile Char.isDigit = '.' :: (e2 ++ rest) :=
    dropWhile_run _ e1 '.' _ hd1 hdot
  unfold tryAfterFrag1
  rw [htw, if_neg he1, hdw]
  show (if ('.' : Char) = '.' then
      tryVer e1 ((e2 ++ rest).takeWhile Char.isDigit) (e2 ++ rest)
        ((e2 ++ rest).takeWhile Char.isDigit).length
    else none).isSome = true
  rw [if_pos rfl]
  have htw2 : (e2 ++ rest).takeWhile Char.isDigit = e2 ++ rest.takeWhile Char.isDigit :=
    takeWhile_all_append _ e2 rest hd2
  rw [htw2]
  have hlen : 1 ≤ e2.length := by
    cases e2 with
    | nil => exact absurd rfl he2
    | cons x xs => simp
  apply tryVer_complete e1 (e2 ++ rest.takeWhile Char.isDigit) (e2 ++ rest) _ e2.length hlen
  · rw [List.length_append]; omega
  · rw [List.take_left, List.drop_left]
    exact hct

/-- Soundness of `tryAt`: an anchored match decomposes the whole text. -/
theorem tryAt_sound (t v : List Char) (h : tryAt t = some v) :
    VerShape v ∧
    ∃ b c d, t = frag1 ++ (v ++ (b ++ (frag2 ++ (c ++ (frag3 v ++ d))))) := by
  unfold tryAt at h
  by_cases hp : frag1.isPrefixOf t = true
  · rw [if_pos hp] at h
    rcases (isPrefixOf_exists _ _).mp hp with ⟨t1, rfl⟩
    rw [List.drop_left] at h
    rcases tryAfterFrag1_sound t1 v h with ⟨hshape, rest, hrest, hct⟩
    rcases (checkTail_iff v rest).mp hct with ⟨b, c, d, hrd⟩
    refine ⟨hshape, b, c, d, ?_⟩
    rw [hrest, hrd]
  · rw [if_neg hp] at h; exact absurd h (by simp)

/-- Completeness of `tryAt` for an anchored decomposition. -/
theorem tryAt_complete (t v : List Char) (hv : VerShape v)
    (hm : ∃ b c d, t = frag1 ++ (v ++ (b ++ (frag2 ++ (c ++ (frag3 v ++ d)))))) :
    (tryAt t).isSome = true := by
  rcases hv with ⟨e1, e2, he1, he2, hd1, hd2, rfl⟩
  rcases hm with ⟨b, c, d, rfl⟩
  unfold tryAt
  rw [if_pos ((isPrefixOf_exists _ _).mpr ⟨_, rfl⟩), List.drop_left]
  have hshape : (e1 ++ '.' :: e2) ++
      (b ++ (frag2 ++ (c ++ (frag3 (e1 ++ '.' :: e2) ++ d)))) =
      e1 ++ '.' :: (e2 ++ (b ++ (frag2 ++ (c ++ (frag3 (e1 ++ '.' :: e2) ++ d))))) := by
    simp
  rw [hshape]
  exact tryAfterFrag1_complete e1 e2 _ he1 he2 hd1 hd2
    ((checkTail_iff _ _).mpr ⟨b, c, d, rfl⟩)

/-- Soundness of the classifier: a returned version is well-shaped and
the text decomposes accordingly. -/
theorem detect_sound : ∀ t v, detect_missing_ver t = some v → VerShape v ∧ SpecMatch t v := by
  intro t
  induction t with
  | nil => intro v h; exact absurd h (by simp [detect_missing_ver])
  | cons x t ih =>
    intro v h
    unfold detect_missing_ver at h
    cases hta : tryAt (x :: t) with
    | some w =>
      rw [hta] at h
      injection h with h2
      subst h2
      rcases tryAt_sound _ _ hta with ⟨hshape, b, c2, d, heq⟩
      exact ⟨hshape, [], b, c2, d, by rw [List.nil_append]; exact heq⟩
    | none =>
      rw [hta] at h
      rcases ih v h with ⟨hshape, a, b, c2, d, heq⟩
      exact ⟨hshape, x :: a, b, c2, d, by rw [heq]; rfl⟩

/-- A non-empty text on which the anchored attempt succeeds is detected. -/
theorem detect_isSome_of_tryAt (t : List Char) (h : (tryAt t).isSome = true)
    (hne : t ≠ []) : (detect_missing_ver t).isSome = true := by
  cases t with
  | nil => exact absurd rfl hne
  | cons x t =>
    unfold detect_missing_ver
    cases hta : tryAt (x :: t) with
    | some w => simp
    | none => rw [hta] at h; exact absurd h (by simp)

/-- Completeness of the classifier for a decomposition whose prefix is
`a`: induction over the match start position. -/
theorem detect_complete_aux (v : List Char) (hv : VerShape v) :
    ∀ (a t1 : List Char),
      (∃ b c d, t1 = frag1 ++ (v ++ (b ++ (frag2 ++ (c ++ (frag3 v ++ d)))))) →
      (detect_missing_ver (a ++ t1)).isSome = true := by
  intro a
  induction a with
  | nil =>
    intro t1 hm
    have hts : (tryAt t1).isSome = true := tryAt_complete t1 v hv hm
    have hne : t1 ≠ [] := by
      rcases hm with ⟨b, c, d, rfl⟩
      intro he
      have hf : frag1 = [] := (List.append_eq_nil.mp he).1
      exact absurd hf (by decide)
    rw [List.nil_append]
    exact detect_isSome_of_tryAt t1 hts hne
  | cons x a ih =>
    intro t1 hm
    rw [List.cons_append]
    unfold detect_missing_ver
    cases hta : tryAt (x :: (a ++ t1)) with
    | some w => simp
    | none => exact ih t1 hm

/-- C3 amended: the classifier returns some version exactly when the
text contains a fragment `No interpreter found for Python V`, followed
somewhere later by `A managed Python download is available`, followed
somewhere later by ``use `uv python install V` `` with the *same* bound
version `V` (back-reference semantics), and every returned version is
such a `V`; a text whose fragments name two different versions is never
classified as a match. -/
theorem uvi_C3_classifier_correct (t : List Char) :
    (∀ v, detect_missing_ver t = some v → VerShape v ∧ SpecMatch t v) ∧
    ((∃ v, VerShape v ∧ SpecMatch t v) ↔ (detect_missing_ver t).isSome = true) := by
  refine ⟨fun v h => detect_sound t v h, ?_, ?_⟩
  · rintro ⟨v, hv, a, b, c, d, rfl⟩
    exact detect_complete_aux v hv a _ ⟨b, c, d, rfl⟩
  · intro h
    rcases Option.isSome_iff_exists.mp h with ⟨v, hv⟩
    exact ⟨v, detect_sound t v hv⟩

/-- Witness for C3 amended: on the concrete signature output the
classifier returns `3.12` and the decomposition exists. -/
theorem uvi_C3_witness :
    VerShape (chars "3.12") ∧ SpecMatch sigOutput (chars "3.12") :=
  (uvi_C3_classifier_correct sigOutput).1 (chars "3.12") (by decide)

/-- Counterexample to C3 as stated: this text contains the
`No interpreter found for Python 3.9` fragment followed later by an
`install 3.9` fragment with the same version, yet the classifier returns
no match, because the required middle fragment `A managed Python
download is available` is absent. -/
theorem uvi_C3_counterexample :
    ClaimedCond (chars "No interpreter found for Python 3.9 use `uv python install 3.9`") ∧
    detect_missing_ver (chars "No interpreter found for Python 3.9 use `uv python install 3.9`") = none := by
  constructor
  · refine ⟨chars "3.9", [], chars " use `uv python ", chars "`",
      ⟨chars "3", chars "9", by decide, by decide, by decide, by decide, by decide⟩, ?_⟩
    decide
  · decide
